import Mathlib

/-!
# Verification of the SQL agent's validation/execution pipeline

Shallow embedding of the core of `server.js` from the `sql-mcp-agent`
repository: the statement validator (`validateQuery`), the result formatter
(`formatQueryResult`) and the statement executor
(`executeCustomSQLTool.execute`), together with proofs of the frozen claims
about them.

JavaScript strings are modelled as `List Char`; the JS regular expressions of
the deny-list are modelled by an explicit pattern matcher over the atoms they
use (`literal char` matched case-insensitively, `\s+`, `\s*`, `.*`). The
database driver is an abstract environment: a state type `σ` and a function
running one statement, which either returns a driver-native result and a new
state or fails with a driver error message.
-/

namespace SqlAgent

/-- JS `\s` (and the character class trimmed by `String.prototype.trim`):
whitespace and line terminators. -/
def jsWs (c : Char) : Bool :=
  c == ' ' || c == '\t' || c == '\n' || c == '\r' || c == '\x0b' || c == '\x0c' ||
  c == '\u00A0' || c == '\u1680' || (0x2000 ≤ c.toNat && c.toNat ≤ 0x200A) ||
  c == '\u2028' || c == '\u2029' || c == '\u202F' || c == '\u205F' ||
  c == '\u3000' || c == '\uFEFF'

/-- JS line terminators: the characters `.` does not match in a regex without
the `s` flag. -/
def lineTerm (c : Char) : Bool :=
  c == '\n' || c == '\r' || c == '\u2028' || c == '\u2029'

/-- Case-insensitive comparison of an input character `c` against an
(uppercase) pattern character `p`, as performed by a JS regex with the `i`
flag on the ASCII range. -/
def ciEq (c p : Char) : Bool := c.toUpper == p

/-- One atom of the deny-list regexes: a literal character (matched
case-insensitively), `\s+`, `\s*` or `.*`. -/
inductive PatAtom where
  | ch (p : Char)
  | ws1
  | ws0
  | dot
deriving DecidableEq

/-- Backtracking matcher for a sequence of pattern atoms anchored at the head
of the input. `fuel` is a structural-recursion bound: every recursive call
strictly decreases `ps.length + cs.length`, so any `fuel` exceeding that sum
computes the exact backtracking result (matching with less pattern and input
left always terminates within the remaining fuel). -/
def matchF : Nat → List PatAtom → List Char → Bool
  | 0, _, _ => false
  | _ + 1, [], _ => true
  | f + 1, .ch p :: ps, cs =>
    match cs with
    | [] => false
    | c :: cs' => ciEq c p && matchF f ps cs'
  | f + 1, .ws1 :: ps, cs =>
    match cs with
    | [] => false
    | c :: cs' => jsWs c && (matchF f ps cs' || matchF f (.ws1 :: ps) cs')
  | f + 1, .ws0 :: ps, cs =>
    matchF f ps cs ||
      (match cs with
       | [] => false
       | c :: cs' => jsWs c && matchF f (.ws0 :: ps) cs')
  | f + 1, .dot :: ps, cs =>
    matchF f ps cs ||
      (match cs with
       | [] => false
       | c :: cs' => !lineTerm c && matchF f (.dot :: ps) cs')

/-- Does the atom sequence match a prefix of `cs`? -/
def matchHere (ps : List PatAtom) (cs : List Char) : Bool :=
  matchF (ps.length + cs.length + 1) ps cs

/-- JS `RegExp.prototype.test`: try to match at every starting position. -/
def searchPat (ps : List PatAtom) : List Char → Bool
  | [] => matchHere ps []
  | c :: cs => matchHere ps (c :: cs) || searchPat ps cs

/-- Literal word of a regex, as a sequence of case-insensitive atoms. -/
def chs (s : String) : List PatAtom := s.data.map PatAtom.ch

/-- `/DROP\s+TABLE/i` -/
def patDropTable : List PatAtom := chs "DROP" ++ [.ws1] ++ chs "TABLE"

/-- `/DROP\s+DATABASE/i` -/
def patDropDatabase : List PatAtom := chs "DROP" ++ [.ws1] ++ chs "DATABASE"

/-- `/TRUNCATE/i` -/
def patTruncate : List PatAtom := chs "TRUNCATE"

/-- `/ALTER\s+TABLE/i` -/
def patAlterTable : List PatAtom := chs "ALTER" ++ [.ws1] ++ chs "TABLE"

/-- `/CREATE\s+TABLE/i` -/
def patCreateTable : List PatAtom := chs "CREATE" ++ [.ws1] ++ chs "TABLE"

/-- The common tail `WHERE\s*1\s*=\s*1` of the last two regexes. -/
def patWhere11 : List PatAtom :=
  chs "WHERE" ++ [.ws0] ++ chs "1" ++ [.ws0] ++ chs "=" ++ [.ws0] ++ chs "1"

/-- `/DELETE\s+FROM.*WHERE\s*1\s*=\s*1/i` -/
def patDeleteAll : List PatAtom :=
  chs "DELETE" ++ [.ws1] ++ chs "FROM" ++ [.dot] ++ patWhere11

/-- `/UPDATE.*SET.*WHERE\s*1\s*=\s*1/i` -/
def patUpdateAll : List PatAtom :=
  chs "UPDATE" ++ [.dot] ++ chs "SET" ++ [.dot] ++ patWhere11

/-- The deny-list of `validateQuery` in `server.js`, in source order. -/
def dangerousPatterns : List (List PatAtom) :=
  [ patDropTable, patDropDatabase, patTruncate, patAlterTable, patCreateTable
  , patDeleteAll, patUpdateAll ]

/-- JS `String.prototype.trim`. -/
def trimL (l : List Char) : List Char :=
  ((l.dropWhile jsWs).reverse.dropWhile jsWs).reverse

/-- JS `String.prototype.toUpperCase` on the basic latin range. -/
def upperL (l : List Char) : List Char := l.map Char.toUpper

/-- Result of `validateQuery`: either `{ valid: true }` or
`{ valid: false, error }`. -/
inductive ValidationResult where
  | valid
  | invalid (error : String)
deriving DecidableEq

/-- The error string of the operation-consistency check. -/
def mismatchMsg (operation : String) : String :=
  "Query does not match expected operation: " ++ operation

/-- The error string shared by all deny-list rejections. -/
def dangerousMsg : String :=
  "Query contains potentially dangerous operations"

/-- `validateQuery(query, operation)` from `server.js`: uppercase the trimmed
query and the operation, reject if the former does not start with the latter;
then reject if any deny-list regex matches the (raw) query; otherwise accept.
All deny-list rejections use the same error string, so scanning the pattern
list with `any` returns the same result as the source's first-match loop. -/
def validateQuery (query operation : String) : ValidationResult :=
  let normalizedQuery := upperL (trimL query.data)
  let normalizedOperation := upperL operation.data
  if !(normalizedOperation.isPrefixOf normalizedQuery) then
    .invalid (mismatchMsg operation)
  else if dangerousPatterns.any (fun p => searchPat p query.data) then
    .invalid dangerousMsg
  else
    .valid

/-- Driver-native result of one statement, as `mysql2` returns it: an array
of rows for a `SELECT`, or an OK-packet with `insertId` and `affectedRows`
for a DML statement. `Row` is the abstract type of one row mapping. -/
inductive RawResult (Row : Type) where
  | rows (rs : List Row)
  | ok (insertId : Option Int) (affectedRows : Nat)
deriving DecidableEq

/-- JS `result.length`: defined on arrays, `undefined` (here `none`) on an
OK-packet object. -/
def jsLength {Row : Type} : RawResult Row → Option Nat
  | .rows rs => some rs.length
  | .ok _ _ => none

/-- JS `result.insertId`: `undefined` (here `none`) on an array. -/
def jsInsertId {Row : Type} : RawResult Row → Option Int
  | .rows _ => none
  | .ok i _ => i

/-- JS `result.affectedRows`: `undefined` (here `none`) on an array. -/
def jsAffectedRows {Row : Type} : RawResult Row → Option Nat
  | .rows _ => none
  | .ok _ a => some a

/-- The per-operation result shapes produced by `formatQueryResult`:
`{ data, count, operation }`, `{ insertId, affectedRows, operation }`,
`{ affectedRows, operation }`, or the fall-through `{ result, operation }`. -/
inductive FormattedResult (Row : Type) where
  | select (data : RawResult Row) (count : Option Nat) (operation : String)
  | insert (insertId : Option Int) (affectedRows : Option Nat) (operation : String)
  | mutate (affectedRows : Option Nat) (operation : String)
  | other (result : RawResult Row) (operation : String)
deriving DecidableEq

/-- `formatQueryResult(result, operation)` from `server.js`: dispatch on the
uppercased operation; unrecognized operations fall through to the
`{ result, operation }` shape. -/
def formatQueryResult {Row : Type} (result : RawResult Row) (operation : String) :
    FormattedResult Row :=
  let normalizedOperation : List Char := upperL operation.data
  if normalizedOperation = "SELECT".data then
    .select result (jsLength result) operation
  else if normalizedOperation = "INSERT".data then
    .insert (jsInsertId result) (jsAffectedRows result) operation
  else if normalizedOperation = "UPDATE".data ∨ normalizedOperation = "DELETE".data then
    .mutate (jsAffectedRows result) operation
  else
    .other result operation

/-- One element of the `queries` array: `{ query, parameters, operation }`. -/
structure QueryObj (Param : Type) where
  query : String
  parameters : List Param
  operation : String

/-- The database driver as an abstract environment: `runQuery db sql ps`
either yields a driver-native result and the successor state, or fails with
a driver error message (a thrown driver error in the source). Transaction
control statements themselves are modelled as infallible. -/
structure DBEnv (σ Param Row : Type) where
  runQuery : σ → String → List Param → Except String (RawResult Row × σ)

/-- Connection-pool and transaction events emitted by the executor, used to
state resource-handling claims: `getConnection`, `beginTransaction`,
`commit`, `rollback`, `connection.release`, and the execution of one
statement. -/
inductive Event where
  | acquire
  | beginTxn
  | commit
  | rollback
  | release
  | query (sql : String)
deriving DecidableEq

/-- The `results` field of a successful return: the single statement's
formatted result (`results[0]`, `none` modelling JS `undefined` when the
array is empty) when exactly one query was requested, otherwise the array. -/
inductive PlanResults (Row : Type) where
  | single (r : Option (FormattedResult Row))
  | many (rs : List (FormattedResult Row))
deriving DecidableEq

/-- A successful return object `{ success: true, results, totalQueries,
isBulk }`. -/
structure SuccessValue (Row : Type) where
  results : PlanResults Row
  totalQueries : Nat
  isBulk : Bool
deriving DecidableEq

/-- The executor's return object: `{ success: true, ... }` or
`{ success: false, error }`. -/
inductive ExecOutcome (Row : Type) where
  | ok (s : SuccessValue Row)
  | err (error : String)
deriving DecidableEq

/-- The transaction body of the bulk branch: validate and run each statement
in order on the dedicated connection. Returns the collected formatted
results and the post-transaction state, or the first validation error /
driver error; the second component lists the statements actually sent to the
database. The caller commits or rolls back. -/
def bulkLoop {σ Param Row : Type} (env : DBEnv σ Param Row) :
    List (QueryObj Param) → σ → List (FormattedResult Row) →
    Except String (List (FormattedResult Row) × σ) × List Event
  | [], db, acc => (.ok (acc.reverse, db), [])
  | qo :: rest, db, acc =>
    match validateQuery qo.query qo.operation with
    | .invalid e => (.error e, [])
    | .valid =>
      match env.runQuery db qo.query qo.parameters with
      | .error e => (.error e, [Event.query qo.query])
      | .ok (raw, db') =>
        let r := bulkLoop env rest db' (formatQueryResult raw qo.operation :: acc)
        (r.1, Event.query qo.query :: r.2)

/-- The non-transactional branch: validate and run each statement in order
against the pool. A validation failure returns immediately; a driver error
propagates to the outer catch and becomes a failure return. Both leave the
effects of already-executed statements in place (`db` is threaded through,
never reset). -/
def seqLoop {σ Param Row : Type} (env : DBEnv σ Param Row) (total : Nat) :
    List (QueryObj Param) → σ → List (FormattedResult Row) →
    ExecOutcome Row × σ × List Event
  | [], db, acc =>
    (.ok ⟨if total == 1 then .single acc.reverse.head? else .many acc.reverse,
          total, false⟩,
     db, [])
  | qo :: rest, db, acc =>
    match validateQuery qo.query qo.operation with
    | .invalid e => (.err e, db, [])
    | .valid =>
      match env.runQuery db qo.query qo.parameters with
      | .error e => (.err e, db, [Event.query qo.query])
      | .ok (raw, db') =>
        let r := seqLoop env total rest db' (formatQueryResult raw qo.operation :: acc)
        (r.1, r.2.1, Event.query qo.query :: r.2.2)

/-- `executeCustomSQLTool.execute({ queries, isBulk })` from `server.js`.
`queries` is already an array in this typed model, so the `Array.isArray`
guard cannot fire. If `isBulk && queries.length > 1`, a dedicated connection
is acquired and a transaction begun; on success it is committed, on any
validation or driver error it is rolled back (the state reverts to the
incoming `db`); the connection is released in a `finally`. Otherwise the
statements run without a transaction. Returns the outcome, the final
database state, and the event trace. -/
def execute {σ Param Row : Type} (env : DBEnv σ Param Row)
    (queries : List (QueryObj Param)) (isBulk : Bool) (db : σ) :
    ExecOutcome Row × σ × List Event :=
  if isBulk && decide (1 < queries.length) then
    match bulkLoop env queries db [] with
    | (.ok (results, db'), evs) =>
      (.ok ⟨.many results, queries.length, true⟩, db',
       Event.acquire :: Event.beginTxn :: (evs ++ [Event.commit, Event.release]))
    | (.error e, evs) =>
      (.err e, db,
       Event.acquire :: Event.beginTxn :: (evs ++ [Event.rollback, Event.release]))
  else
    seqLoop env queries.length queries db []

/-! ### Claim-side definitions

The following definitions formalise phrases used by the claims ("contains …
case-insensitively", "matches `DELETE FROM ... WHERE 1=1`", "leading
keyword", "state after executing a prefix of the plan"). They are stated
independently of the pattern matcher above. -/

/-- Character-wise case-insensitive equality of an input segment with a
pattern word (`ciEq` on every position). -/
def ciEqList : List Char → List Char → Bool
  | [], [] => true
  | c :: cs, p :: ps => ciEq c p && ciEqList cs ps
  | _, _ => false

/-- Does the word `pat` occur case-insensitively at the head of the input? -/
def ciLeads : List Char → List Char → Bool
  | [], _ => true
  | _ :: _, [] => false
  | p :: ps, c :: cs => ciEq c p && ciLeads ps cs

/-- Does the word `pat` occur case-insensitively anywhere in the input?
Formalises the claims' "text contains X (case-insensitive)". -/
def ciContains (pat : List Char) : List Char → Bool
  | [] => ciLeads pat []
  | c :: cs => ciLeads pat (c :: cs) || ciContains pat cs

/-- Formalises "text matches `DELETE FROM ... WHERE 1=1` (case-insensitive)":
an occurrence of `DELETE FROM`, then a gap free of line terminators (the
regex `.` does not cross those), then `WHERE 1=1`. -/
def MatchesDeleteAll (cs : List Char) : Prop :=
  ∃ l d m w r, cs = l ++ d ++ m ++ w ++ r ∧
    ciEqList d ("DELETE FROM").data = true ∧
    (∀ c ∈ m, lineTerm c = false) ∧
    ciEqList w ("WHERE 1=1").data = true

/-- Formalises "text matches `UPDATE ... SET ... WHERE 1=1`
(case-insensitive)": occurrences of `UPDATE`, `SET` and `WHERE 1=1` in
order, the gaps free of line terminators. -/
def MatchesUpdateAll (cs : List Char) : Prop :=
  ∃ l u m₁ s m₂ w r, cs = l ++ u ++ m₁ ++ s ++ m₂ ++ w ++ r ∧
    ciEqList u ("UPDATE").data = true ∧
    (∀ c ∈ m₁, lineTerm c = false) ∧
    ciEqList s ("SET").data = true ∧
    (∀ c ∈ m₂, lineTerm c = false) ∧
    ciEqList w ("WHERE 1=1").data = true

/-- The leading keyword of a statement text: the trimmed, uppercased text up
to the first whitespace character. Formalises the claims' "text's leading
keyword". -/
def firstTokenUpper (s : String) : List Char :=
  (upperL (trimL s.data)).takeWhile (fun c => !jsWs c)

/-- The database state reached by running the given statements in order,
`none` if some driver call fails. Used to state that the sequential
strategy leaves the effects of already-executed statements in place. -/
def runPrefix {σ Param Row : Type} (env : DBEnv σ Param Row) :
    List (QueryObj Param) → σ → Option σ
  | [], db => some db
  | qo :: rest, db =>
    match env.runQuery db qo.query qo.parameters with
    | .error _ => none
    | .ok (_, db') => runPrefix env rest db'

/-- The pattern atoms match a prefix of the input with some amount of fuel.
Since `matchF` is monotone in fuel and any successful match fits in
`ps.length + cs.length + 1` steps, this is equivalent to `matchHere`;
the existential form composes conveniently in proofs. -/
def MatchesAt (ps : List PatAtom) (cs : List Char) : Prop :=
  ∃ f, matchF f ps cs = true

/-! ### Concrete fixtures for witnesses

A trivial driver over `σ = Nat` (the state counts executed statements) and
a few concrete statements, used to instantiate the universally quantified
claim theorems at concrete inputs. -/

/-- A concrete driver: every statement succeeds, returns no rows and bumps
the state counter. -/
def wEnv : DBEnv Nat Nat Nat := ⟨fun db _ _ => .ok (.rows [], db + 1)⟩

/-- A concrete statement request passing validation. -/
def wGood : QueryObj Nat := ⟨"SELECT 1", [], "SELECT"⟩

/-- A concrete statement request rejected by the deny-list. -/
def wBad : QueryObj Nat := ⟨"DROP TABLE t", [], "DROP"⟩

/-- The successful return of `execute wEnv [wGood] true 0`. -/
def wSingleSuccess : SuccessValue Nat :=
  ⟨.single (some (.select (.rows []) (some 0) "SELECT")), 1, false⟩

/-! ## Matcher infrastructure -/

theorem char_toNat_ofNat {n : Nat} (h : n < 55296) : (Char.ofNat n).toNat = n := by
  have hv : Nat.isValidChar n := Or.inl h
  rw [Char.ofNat, dif_pos hv]
  rfl

theorem toUpper_eq_space {c : Char} (h : c.toUpper = ' ') : c = ' ' := by
  simp only [Char.toUpper] at h
  split at h
  · exfalso
    rename_i hc
    have h2 := congrArg Char.toNat h
    rw [char_toNat_ofNat (by omega)] at h2
    have h3 : Char.toNat ' ' = 32 := rfl
    rw [h3] at h2
    omega
  · exact h

theorem ciEq_space {c : Char} (h : ciEq c ' ' = true) : c = ' ' :=
  toUpper_eq_space (by simpa [ciEq] using h)

theorem jsWs_of_ciEq_space {c : Char} (h : ciEq c ' ' = true) : jsWs c = true := by
  rw [ciEq_space h]
  decide

theorem matchF_suffices : ∀ (f : Nat) (ps : List PatAtom) (cs : List Char),
    matchF f ps cs = true → ∀ g, ps.length + cs.length < g → matchF g ps cs = true := by
  intro f
  induction f with
  | zero => intro ps cs h; simp [matchF] at h
  | succ f ih =>
    intro ps cs h g hg
    cases g with
    | zero => omega
    | succ g =>
      cases ps with
      | nil => simp [matchF]
      | cons a ps =>
        cases a with
        | ch p =>
          cases cs with
          | nil => simp [matchF] at h
          | cons c cs =>
            simp only [matchF, Bool.and_eq_true] at h ⊢
            refine ⟨h.1, ih ps cs h.2 g ?_⟩
            simp only [List.length_cons] at hg
            omega
        | ws1 =>
          cases cs with
          | nil => simp [matchF] at h
          | cons c cs =>
            simp only [matchF, Bool.and_eq_true, Bool.or_eq_true] at h ⊢
            have hlen : PatAtom.ws1 :: ps = PatAtom.ws1 :: ps := rfl
            refine ⟨h.1, ?_⟩
            rcases h.2 with h2 | h2
            · refine Or.inl (ih ps cs h2 g ?_)
              simp only [List.length_cons] at hg
              omega
            · refine Or.inr (ih (PatAtom.ws1 :: ps) cs h2 g ?_)
              simp only [List.length_cons] at hg ⊢
              omega
        | ws0 =>
          cases cs with
          | nil =>
            simp only [matchF, Bool.or_eq_true] at h ⊢
            rcases h with h2 | h2
            · refine Or.inl (ih ps [] h2 g ?_)
              simp only [List.length_cons, List.length_nil] at hg ⊢
              omega
            · simp at h2
          | cons c cs =>
            simp only [matchF, Bool.or_eq_true, Bool.and_eq_true] at h ⊢
            rcases h with h2 | h2
            · refine Or.inl (ih ps (c :: cs) h2 g ?_)
              simp only [List.length_cons] at hg ⊢
              omega
            · refine Or.inr ⟨h2.1, ih (PatAtom.ws0 :: ps) cs h2.2 g ?_⟩
              simp only [List.length_cons] at hg ⊢
              omega
        | dot =>
          cases cs with
          | nil =>
            simp only [matchF, Bool.or_eq_true] at h ⊢
            rcases h with h2 | h2
            · refine Or.inl (ih ps [] h2 g ?_)
              simp only [List.length_cons, List.length_nil] at hg ⊢
              omega
            · simp at h2
          | cons c cs =>
            simp only [matchF, Bool.or_eq_true, Bool.and_eq_true] at h ⊢
            rcases h with h2 | h2
            · refine Or.inl (ih ps (c :: cs) h2 g ?_)
              simp only [List.length_cons] at hg ⊢
              omega
            · refine Or.inr ⟨h2.1, ih (PatAtom.dot :: ps) cs h2.2 g ?_⟩
              simp only [List.length_cons] at hg ⊢
              omega

theorem matchHere_of_matchesAt {ps : List PatAtom} {cs : List Char}
    (h : MatchesAt ps cs) : matchHere ps cs = true := by
  obtain ⟨f, hf⟩ := h
  exact matchF_suffices f ps cs hf (ps.length + cs.length + 1) (Nat.lt_succ_self _)

theorem matchesAt_nil (cs : List Char) : MatchesAt [] cs :=
  ⟨1, by simp [matchF]⟩

theorem matchesAt_lit {lit : List Char} {ps : List PatAtom} {rest : List Char}
    (h : MatchesAt ps rest) :
    ∀ {m : List Char}, ciEqList m lit = true →
      MatchesAt (lit.map PatAtom.ch ++ ps) (m ++ rest) := by
  induction lit with
  | nil =>
    intro m hm
    cases m with
    | nil => simpa using h
    | cons c m => simp [ciEqList] at hm
  | cons p lit ih =>
    intro m hm
    cases m with
    | nil => simp [ciEqList] at hm
    | cons c m =>
      simp only [ciEqList, Bool.and_eq_true] at hm
      obtain ⟨f, hf⟩ := ih hm.2
      refine ⟨f + 1, ?_⟩
      simp only [List.map_cons, List.cons_append, matchF, hm.1, Bool.true_and]
      exact hf

theorem matchesAt_lit_end {lit m rest : List Char} (hm : ciEqList m lit = true) :
    MatchesAt (lit.map PatAtom.ch) (m ++ rest) := by
  simpa using matchesAt_lit (matchesAt_nil rest) hm

theorem matchesAt_ws1 {c : Char} {ps : List PatAtom} {cs : List Char}
    (hc : jsWs c = true) (h : MatchesAt ps cs) : MatchesAt (.ws1 :: ps) (c :: cs) := by
  obtain ⟨f, hf⟩ := h
  exact ⟨f + 1, by simp [matchF, hc, hf]⟩

theorem matchesAt_ws0_skip {ps : List PatAtom} {cs : List Char}
    (h : MatchesAt ps cs) : MatchesAt (.ws0 :: ps) cs := by
  obtain ⟨f, hf⟩ := h
  exact ⟨f + 1, by simp [matchF, hf]⟩

theorem matchesAt_ws0_cons {c : Char} {ps : List PatAtom} {cs : List Char}
    (hc : jsWs c = true) (h : MatchesAt (.ws0 :: ps) cs) :
    MatchesAt (.ws0 :: ps) (c :: cs) := by
  obtain ⟨f, hf⟩ := h
  exact ⟨f + 1, by simp [matchF, hc, hf]⟩

theorem matchesAt_dot {ps : List PatAtom} {cs : List Char} :
    ∀ (m : List Char), (∀ c ∈ m, lineTerm c = false) → MatchesAt ps cs →
      MatchesAt (.dot :: ps) (m ++ cs) := by
  intro m
  induction m with
  | nil =>
    intro _ h
    obtain ⟨f, hf⟩ := h
    exact ⟨f + 1, by simp [matchF, hf]⟩
  | cons c m ih =>
    intro hm h
    have hc : lineTerm c = false := hm c (List.mem_cons_self c m)
    obtain ⟨f, hf⟩ := ih (fun x hx => hm x (List.mem_cons_of_mem _ hx)) h
    exact ⟨f + 1, by simp [matchF, hc, hf]⟩

theorem searchPat_suffix {ps : List PatAtom} (pre : List Char) {suf : List Char}
    (h : matchHere ps suf = true) : searchPat ps (pre ++ suf) = true := by
  induction pre with
  | nil =>
    cases suf with
    | nil => simpa [searchPat] using h
    | cons c cs => simp [searchPat, h]
  | cons c pre ih => simp [searchPat, ih]

theorem ciLeads_append {a b : List Char} : ∀ {cs : List Char},
    ciLeads (a ++ b) cs = true →
    ∃ m rest, cs = m ++ rest ∧ ciEqList m a = true ∧ ciLeads b rest = true := by
  induction a with
  | nil => intro cs h; exact ⟨[], cs, rfl, rfl, h⟩
  | cons p a ih =>
    intro cs h
    cases cs with
    | nil => simp [ciLeads] at h
    | cons c cs =>
      simp only [List.cons_append, ciLeads, Bool.and_eq_true] at h
      obtain ⟨m, rest, heq, hm, hb⟩ := ih h.2
      exact ⟨c :: m, rest, by simp [heq], by simp [ciEqList, h.1, hm], hb⟩

theorem ciLeads_split {a cs : List Char} (h : ciLeads a cs = true) :
    ∃ m rest, cs = m ++ rest ∧ ciEqList m a = true := by
  have h' : ciLeads (a ++ []) cs = true := by simpa using h
  obtain ⟨m, rest, heq, hm, _⟩ := ciLeads_append h'
  exact ⟨m, rest, heq, hm⟩

theorem ciContains_split {pat : List Char} : ∀ {cs : List Char},
    ciContains pat cs = true →
    ∃ pre suf, cs = pre ++ suf ∧ ciLeads pat suf = true := by
  intro cs
  induction cs with
  | nil => intro h; exact ⟨[], [], rfl, by simpa [ciContains] using h⟩
  | cons c cs ih =>
    intro h
    simp only [ciContains, Bool.or_eq_true] at h
    rcases h with h | h
    · exact ⟨[], c :: cs, rfl, h⟩
    · obtain ⟨pre, suf, heq, hl⟩ := ih h
      exact ⟨c :: pre, suf, by simp [heq], hl⟩

theorem ciEqList_append {a b : List Char} : ∀ {m : List Char},
    ciEqList m (a ++ b) = true →
    ∃ m₁ m₂, m = m₁ ++ m₂ ∧ ciEqList m₁ a = true ∧ ciEqList m₂ b = true := by
  induction a with
  | nil => intro m h; exact ⟨[], m, rfl, rfl, h⟩
  | cons p a ih =>
    intro m h
    cases m with
    | nil => simp [ciEqList] at h
    | cons c m =>
      simp only [List.cons_append, ciEqList, Bool.and_eq_true] at h
      obtain ⟨m₁, m₂, heq, h1, h2⟩ := ih h.2
      exact ⟨c :: m₁, m₂, by simp [heq], by simp [ciEqList, h.1, h1], h2⟩

theorem matchesAt_wordSpaceWord {w₁ w₂ : List Char} {cs : List Char}
    (h : ciLeads (w₁ ++ ' ' :: w₂) cs = true) :
    MatchesAt (w₁.map PatAtom.ch ++ .ws1 :: w₂.map PatAtom.ch) cs := by
  obtain ⟨m₁, rest, rfl, hm₁, hrest⟩ := ciLeads_append h
  cases rest with
  | nil => simp [ciLeads] at hrest
  | cons c rest =>
    simp only [ciLeads, Bool.and_eq_true] at hrest
    obtain ⟨hc, hw₂⟩ := hrest
    obtain ⟨m₂, rest₂, rfl, hm₂⟩ := ciLeads_split hw₂
    exact matchesAt_lit (matchesAt_ws1 (jsWs_of_ciEq_space hc) (matchesAt_lit_end hm₂)) hm₁

theorem matchesAt_where11 {w : List Char} (hw : ciEqList w ("WHERE 1=1").data = true)
    (r : List Char) :
    MatchesAt patWhere11 (w ++ r) := by
  have hw' : ciEqList w ("WHERE".data ++ ' ' :: ['1', '=', '1']) = true := hw
  obtain ⟨m₁, m₂, rfl, h₁, h₂⟩ := ciEqList_append hw'
  cases m₂ with
  | nil => simp [ciEqList] at h₂
  | cons c m₂ =>
    simp only [ciEqList, Bool.and_eq_true] at h₂
    obtain ⟨hc, h₂⟩ := h₂
    cases m₂ with
    | nil => simp [ciEqList] at h₂
    | cons a m₃ =>
      simp only [ciEqList, Bool.and_eq_true] at h₂
      obtain ⟨ha, h₂⟩ := h₂
      cases m₃ with
      | nil => simp [ciEqList] at h₂
      | cons b m₄ =>
        simp only [ciEqList, Bool.and_eq_true] at h₂
        obtain ⟨hb, h₂⟩ := h₂
        cases m₄ with
        | nil => simp [ciEqList] at h₂
        | cons d m₅ =>
          simp only [ciEqList, Bool.and_eq_true] at h₂
          obtain ⟨hd, h₂⟩ := h₂
          cases m₅ with
          | cons x m₆ => simp [ciEqList] at h₂
          | nil =>
            have t₁ : MatchesAt (['1'].map PatAtom.ch) ([d] ++ r) :=
              matchesAt_lit_end (by simp [ciEqList, hd])
            have t₂ : MatchesAt (.ws0 :: ['1'].map PatAtom.ch) (d :: r) :=
              matchesAt_ws0_skip t₁
            have t₃ := matchesAt_lit t₂ (show ciEqList [b] ['='] = true by simp [ciEqList, hb])
            have t₄ := matchesAt_ws0_skip t₃
            have t₅ := matchesAt_lit t₄ (show ciEqList [a] ['1'] = true by simp [ciEqList, ha])
            have t₆ := matchesAt_ws0_cons (jsWs_of_ciEq_space hc) (matchesAt_ws0_skip t₅)
            have t₇ := matchesAt_lit t₆ h₁
            simpa [patWhere11, chs, List.append_assoc] using t₇

theorem dangerous_any_of_matches {cs : List Char} {p : List PatAtom}
    (hp : p ∈ dangerousPatterns) {pre suf : List Char} (heq : cs = pre ++ suf)
    (hm : MatchesAt p suf) :
    (dangerousPatterns.any fun q => searchPat q cs) = true := by
  refine List.any_eq_true.mpr ⟨p, hp, ?_⟩
  rw [heq]
  exact searchPat_suffix pre (matchHere_of_matchesAt hm)

theorem validateQuery_invalid_of_dangerous {query operation : String}
    (h : (dangerousPatterns.any fun p => searchPat p query.data) = true) :
    ∃ e, validateQuery query operation = .invalid e := by
  cases hb : (upperL operation.data).isPrefixOf (upperL (trimL query.data)) with
  | false => exact ⟨mismatchMsg operation, by simp [validateQuery, hb]⟩
  | true => exact ⟨dangerousMsg, by simp [validateQuery, hb, h]⟩

theorem dangerous_of_dropTable {cs : List Char}
    (h : ciContains ("DROP TABLE").data cs = true) :
    (dangerousPatterns.any fun q => searchPat q cs) = true := by
  obtain ⟨pre, suf, heq, hl⟩ := ciContains_split h
  exact dangerous_any_of_matches (by decide) heq
    (@matchesAt_wordSpaceWord ("DROP").data ("TABLE").data suf hl)

theorem dangerous_of_dropDatabase {cs : List Char}
    (h : ciContains ("DROP DATABASE").data cs = true) :
    (dangerousPatterns.any fun q => searchPat q cs) = true := by
  obtain ⟨pre, suf, heq, hl⟩ := ciContains_split h
  exact dangerous_any_of_matches (by decide) heq
    (@matchesAt_wordSpaceWord ("DROP").data ("DATABASE").data suf hl)

theorem dangerous_of_truncate {cs : List Char}
    (h : ciContains ("TRUNCATE").data cs = true) :
    (dangerousPatterns.any fun q => searchPat q cs) = true := by
  obtain ⟨pre, suf, heq, hl⟩ := ciContains_split h
  obtain ⟨m, rest, hsuf, hm⟩ := ciLeads_split hl
  subst hsuf
  exact dangerous_any_of_matches (by decide) heq
    (matchesAt_lit_end hm)

theorem dangerous_of_alterTable {cs : List Char}
    (h : ciContains ("ALTER TABLE").data cs = true) :
    (dangerousPatterns.any fun q => searchPat q cs) = true := by
  obtain ⟨pre, suf, heq, hl⟩ := ciContains_split h
  exact dangerous_any_of_matches (by decide) heq
    (@matchesAt_wordSpaceWord ("ALTER").data ("TABLE").data suf hl)

theorem dangerous_of_createTable {cs : List Char}
    (h : ciContains ("CREATE TABLE").data cs = true) :
    (dangerousPatterns.any fun q => searchPat q cs) = true := by
  obtain ⟨pre, suf, heq, hl⟩ := ciContains_split h
  exact dangerous_any_of_matches (by decide) heq
    (@matchesAt_wordSpaceWord ("CREATE").data ("TABLE").data suf hl)

theorem dangerous_of_deleteAll {cs : List Char} (h : MatchesDeleteAll cs) :
    (dangerousPatterns.any fun q => searchPat q cs) = true := by
  obtain ⟨l, d, m, w, r, heq, hd, hm, hw⟩ := h
  have hd' : ciEqList d ("DELETE".data ++ ' ' :: "FROM".data) = true := hd
  obtain ⟨d₁, d₂, rfl, hd₁, hd₂⟩ := ciEqList_append hd'
  cases d₂ with
  | nil => simp [ciEqList] at hd₂
  | cons c d₃ =>
    simp only [ciEqList, Bool.and_eq_true] at hd₂
    obtain ⟨hc, hd₃⟩ := hd₂
    have base : MatchesAt patWhere11 (w ++ r) := matchesAt_where11 hw r
    have t₁ : MatchesAt (.dot :: patWhere11) (m ++ (w ++ r)) :=
      matchesAt_dot m hm base
    have t₂ := matchesAt_lit t₁ hd₃
    have t₃ := matchesAt_ws1 (jsWs_of_ciEq_space hc) t₂
    have t₄ := matchesAt_lit t₃ hd₁
    have hcs : cs = l ++ (d₁ ++ (c :: (d₃ ++ (m ++ (w ++ r))))) := by
      rw [heq]; simp [List.append_assoc]
    exact dangerous_any_of_matches (by decide) hcs t₄

theorem dangerous_of_updateAll {cs : List Char} (h : MatchesUpdateAll cs) :
    (dangerousPatterns.any fun q => searchPat q cs) = true := by
  obtain ⟨l, u, m₁, s, m₂, w, r, heq, hu, hm₁, hs, hm₂, hw⟩ := h
  have base : MatchesAt patWhere11 (w ++ r) := matchesAt_where11 hw r
  have t₁ : MatchesAt (.dot :: patWhere11) (m₂ ++ (w ++ r)) :=
    matchesAt_dot m₂ hm₂ base
  have t₂ := matchesAt_lit t₁ hs
  have t₃ : MatchesAt (.dot :: ("SET").data.map PatAtom.ch ++ .dot :: patWhere11)
      (m₁ ++ (s ++ (m₂ ++ (w ++ r)))) :=
    matchesAt_dot m₁ hm₁ t₂
  have t₄ := matchesAt_lit t₃ hu
  have hcs : cs = l ++ (u ++ (m₁ ++ (s ++ (m₂ ++ (w ++ r))))) := by
    rw [heq]; simp [List.append_assoc]
  exact dangerous_any_of_matches (by decide) hcs t₄

/-! ## Executor infrastructure -/

theorem query_events_excl {evs : List Event}
    (hevs : ∀ e ∈ evs, ∃ s, e = Event.query s) :
    Event.acquire ∉ evs ∧ Event.release ∉ evs ∧ Event.beginTxn ∉ evs := by
  refine ⟨?_, ?_, ?_⟩ <;> intro hmem <;> obtain ⟨s, hs⟩ := hevs _ hmem <;> simp at hs

theorem bulkLoop_events {σ Param Row : Type} (env : DBEnv σ Param Row) :
    ∀ (qs : List (QueryObj Param)) (db : σ) (acc : List (FormattedResult Row)),
      ∀ e ∈ (bulkLoop env qs db acc).2, ∃ s, e = Event.query s := by
  intro qs
  induction qs with
  | nil => intro db acc e he; simp [bulkLoop] at he
  | cons qo rest ih =>
    intro db acc e he
    simp only [bulkLoop] at he
    cases hv : validateQuery qo.query qo.operation with
    | invalid err => rw [hv] at he; simp at he
    | valid =>
      rw [hv] at he
      cases hr : env.runQuery db qo.query qo.parameters with
      | error err =>
        rw [hr] at he
        simp at he
        exact ⟨qo.query, he⟩
      | ok pair =>
        obtain ⟨raw, db'⟩ := pair
        rw [hr] at he
        simp at he
        rcases he with he | he
        · exact ⟨qo.query, he⟩
        · exact ih db' (formatQueryResult raw qo.operation :: acc) e he

theorem seqLoop_events {σ Param Row : Type} (env : DBEnv σ Param Row) (total : Nat) :
    ∀ (qs : List (QueryObj Param)) (db : σ) (acc : List (FormattedResult Row)),
      ∀ e ∈ (seqLoop env total qs db acc).2.2, ∃ s, e = Event.query s := by
  intro qs
  induction qs with
  | nil => intro db acc e he; simp [seqLoop] at he
  | cons qo rest ih =>
    intro db acc e he
    simp only [seqLoop] at he
    cases hv : validateQuery qo.query qo.operation with
    | invalid err => rw [hv] at he; simp at he
    | valid =>
      rw [hv] at he
      cases hr : env.runQuery db qo.query qo.parameters with
      | error err =>
        rw [hr] at he
        simp at he
        exact ⟨qo.query, he⟩
      | ok pair =>
        obtain ⟨raw, db'⟩ := pair
        rw [hr] at he
        simp at he
        rcases he with he | he
        · exact ⟨qo.query, he⟩
        · exact ih db' (formatQueryResult raw qo.operation :: acc) e he

theorem bulkLoop_error {σ Param Row : Type} (env : DBEnv σ Param Row) :
    ∀ (qs : List (QueryObj Param)) (db : σ) (acc : List (FormattedResult Row)) (e : String),
      (bulkLoop env qs db acc).1 = .error e →
      ∃ qo ∈ qs, validateQuery qo.query qo.operation = .invalid e ∨
        ∃ d, env.runQuery d qo.query qo.parameters = .error e := by
  intro qs
  induction qs with
  | nil => intro db acc e h; simp [bulkLoop] at h
  | cons qo rest ih =>
    intro db acc e h
    simp only [bulkLoop] at h
    cases hv : validateQuery qo.query qo.operation with
    | invalid err =>
      rw [hv] at h
      simp at h
      exact ⟨qo, List.mem_cons_self _ _, Or.inl (by rw [hv, h])⟩
    | valid =>
      rw [hv] at h
      cases hr : env.runQuery db qo.query qo.parameters with
      | error err =>
        rw [hr] at h
        simp at h
        exact ⟨qo, List.mem_cons_self _ _, Or.inr ⟨db, by rw [hr, h]⟩⟩
      | ok pair =>
        obtain ⟨raw, db'⟩ := pair
        rw [hr] at h
        simp at h
        obtain ⟨qo', hmem, hcase⟩ := ih db' (formatQueryResult raw qo.operation :: acc) e h
        exact ⟨qo', List.mem_cons_of_mem _ hmem, hcase⟩

theorem bulkLoop_ok {σ Param Row : Type} (env : DBEnv σ Param Row) :
    ∀ (qs : List (QueryObj Param)) (db : σ) (acc : List (FormattedResult Row))
      (x : List (FormattedResult Row) × σ),
      (bulkLoop env qs db acc).1 = .ok x →
      ∀ qo ∈ qs, validateQuery qo.query qo.operation = .valid := by
  intro qs
  induction qs with
  | nil => intro db acc x _ qo hqo; simp at hqo
  | cons qo rest ih =>
    intro db acc x h qo' hqo'
    simp only [bulkLoop] at h
    cases hv : validateQuery qo.query qo.operation with
    | invalid err => rw [hv] at h; simp at h
    | valid =>
      rw [hv] at h
      cases hr : env.runQuery db qo.query qo.parameters with
      | error err => rw [hr] at h; simp at h
      | ok pair =>
        obtain ⟨raw, db'⟩ := pair
        rw [hr] at h
        simp at h
        rcases List.mem_cons.mp hqo' with heq | hmem
        · rw [heq]; exact hv
        · exact ih db' (formatQueryResult raw qo.operation :: acc) x h qo' hmem

theorem seqLoop_ok {σ Param Row : Type} (env : DBEnv σ Param Row) (total : Nat) :
    ∀ (qs : List (QueryObj Param)) (db : σ) (acc : List (FormattedResult Row))
      (s : SuccessValue Row),
      (seqLoop env total qs db acc).1 = .ok s →
      s.totalQueries = total ∧ s.isBulk = false := by
  intro qs
  induction qs with
  | nil =>
    intro db acc s h
    simp only [seqLoop] at h
    simp at h
    rw [← h]
    exact ⟨rfl, rfl⟩
  | cons qo rest ih =>
    intro db acc s h
    simp only [seqLoop] at h
    cases hv : validateQuery qo.query qo.operation with
    | invalid err => rw [hv] at h; simp at h
    | valid =>
      rw [hv] at h
      cases hr : env.runQuery db qo.query qo.parameters with
      | error err => rw [hr] at h; simp at h
      | ok pair =>
        obtain ⟨raw, db'⟩ := pair
        rw [hr] at h
        simp at h
        exact ih db' (formatQueryResult raw qo.operation :: acc) s h

theorem seqLoop_abort {σ Param Row : Type} (env : DBEnv σ Param Row) (total : Nat) :
    ∀ (pre : List (QueryObj Param)) (qo : QueryObj Param) (rest : List (QueryObj Param))
      (db db' : σ) (acc : List (FormattedResult Row)) (e : String),
      (∀ p ∈ pre, validateQuery p.query p.operation = .valid) →
      validateQuery qo.query qo.operation = .invalid e →
      runPrefix env pre db = some db' →
      seqLoop env total (pre ++ qo :: rest) db acc =
        (.err e, db', pre.map fun p => Event.query p.query) := by
  intro pre
  induction pre with
  | nil =>
    intro qo rest db db' acc e _ hqo hrun
    simp only [runPrefix, Option.some_inj] at hrun
    subst hrun
    simp [seqLoop, hqo]
  | cons p pre ih =>
    intro qo rest db db' acc e hpre hqo hrun
    have hp : validateQuery p.query p.operation = .valid :=
      hpre p (List.mem_cons_self _ _)
    simp only [runPrefix] at hrun
    cases hr : env.runQuery db p.query p.parameters with
    | error err => rw [hr] at hrun; simp at hrun
    | ok pair =>
      obtain ⟨raw, db₂⟩ := pair
      rw [hr] at hrun
      simp only at hrun
      have hrec := ih qo rest db₂ db' (formatQueryResult raw p.operation :: acc) e
        (fun x hx => hpre x (List.mem_cons_of_mem _ hx)) hqo hrun
      simp [seqLoop, hp, hr, hrec]

/-! ## Claim theorems -/

/-- C4, counterexample: the claim says `validate` rejects with an "operation
mismatch" reason whenever the text's leading keyword differs from the
declared operation. The code compares by string prefix, not by leading
token: the text `SELECTED` has leading keyword `SELECTED ≠ SELECT`, yet
`validateQuery "SELECTED" "SELECT"` accepts, because `"SELECTED"` starts
with the character prefix `"SELECT"`. -/
theorem claim_C4_counterexample :
    firstTokenUpper "SELECTED" ≠ ("SELECT").data ∧
    validateQuery "SELECTED" "SELECT" = ValidationResult.valid := by
  constructor
  · decide
  · decide

/-- C4, amended: `validateQuery` normalises the text (trim, uppercase) and
compares the uppercased operation against it as a *string prefix*: it
returns the "operation mismatch" rejection exactly when the normalised text
does not start (character-wise) with the uppercased operation; when the
prefix test passes, the mismatch check passes and the outcome is either
`valid` or the deny-list rejection. -/
theorem claim_C4 (query operation : String) :
    ((upperL operation.data).isPrefixOf (upperL (trimL query.data)) = false →
      validateQuery query operation = .invalid (mismatchMsg operation)) ∧
    ((upperL operation.data).isPrefixOf (upperL (trimL query.data)) = true →
      validateQuery query operation = .valid ∨
      validateQuery query operation = .invalid dangerousMsg) := by
  constructor
  · intro hb
    simp [validateQuery, hb]
  · intro hb
    cases hd : dangerousPatterns.any (fun p => searchPat p query.data) with
    | true => exact Or.inr (by simp [validateQuery, hb, hd])
    | false => exact Or.inl (by simp [validateQuery, hb, hd])

/-- Witness for C4 (amended), at concrete inputs for both directions. -/
theorem claim_C4_witness :
    validateQuery "FOO" "SELECT" = ValidationResult.invalid (mismatchMsg "SELECT") ∧
    (validateQuery "SELECT 1" "SELECT" = ValidationResult.valid ∨
     validateQuery "SELECT 1" "SELECT" = ValidationResult.invalid dangerousMsg) :=
  ⟨(claim_C4 "FOO" "SELECT").1 (by decide),
   (claim_C4 "SELECT 1" "SELECT").2 (by decide)⟩

/-- C5: whatever the declared operation, `validateQuery` rejects every text
that contains `DROP TABLE`, `DROP DATABASE`, `TRUNCATE`, `ALTER TABLE` or
`CREATE TABLE` (case-insensitively), and every text matching
`DELETE FROM ... WHERE 1=1` or `UPDATE ... SET ... WHERE 1=1`
(case-insensitively, the gaps not crossing line terminators, which the
regex `.` cannot match). -/
theorem claim_C5 (query operation : String)
    (h : ciContains ("DROP TABLE").data query.data = true ∨
         ciContains ("DROP DATABASE").data query.data = true ∨
         ciContains ("TRUNCATE").data query.data = true ∨
         ciContains ("ALTER TABLE").data query.data = true ∨
         ciContains ("CREATE TABLE").data query.data = true ∨
         MatchesDeleteAll query.data ∨
         MatchesUpdateAll query.data) :
    ∃ e, validateQuery query operation = .invalid e := by
  refine validateQuery_invalid_of_dangerous ?_
  rcases h with h | h | h | h | h | h | h
  · exact dangerous_of_dropTable h
  · exact dangerous_of_dropDatabase h
  · exact dangerous_of_truncate h
  · exact dangerous_of_alterTable h
  · exact dangerous_of_createTable h
  · exact dangerous_of_deleteAll h
  · exact dangerous_of_updateAll h

/-- Witness for C5 at a concrete input containing `drop table`. -/
theorem claim_C5_witness :
    ∃ e, validateQuery "Drop Table Users" "SELECT" = ValidationResult.invalid e :=
  claim_C5 "Drop Table Users" "SELECT" (Or.inl (by decide))

/-- C7, counterexample: the claim says the rejection reason names the
specific policy violated, e.g. *which* dangerous pattern caused the
rejection. But the code returns the one fixed string
`"Query contains potentially dangerous operations"` for every deny-list
rejection: two statements violating different patterns (`DROP TABLE` vs
`TRUNCATE`) receive identical reasons. -/
theorem claim_C7_counterexample :
    validateQuery "DROP TABLE Users" "DROP" = ValidationResult.invalid dangerousMsg ∧
    validateQuery "TRUNCATE Users" "TRUNCATE" = ValidationResult.invalid dangerousMsg := by
  constructor
  · decide
  · decide

/-- C7, amended: every outcome of `validateQuery` is either `valid` or a
rejection carrying a reason string; a mismatch rejection's reason names the
declared operation, while every deny-list rejection carries the same fixed
reason, which identifies the deny-list policy but not the individual
pattern. -/
theorem claim_C7 (query operation : String) :
    validateQuery query operation = .valid ∨
    validateQuery query operation = .invalid (mismatchMsg operation) ∨
    validateQuery query operation = .invalid dangerousMsg := by
  cases hb : (upperL operation.data).isPrefixOf (upperL (trimL query.data)) with
  | false => exact Or.inr (Or.inl (by simp [validateQuery, hb]))
  | true =>
    cases hd : dangerousPatterns.any (fun p => searchPat p query.data) with
    | true => exact Or.inr (Or.inr (by simp [validateQuery, hb, hd]))
    | false => exact Or.inl (by simp [validateQuery, hb, hd])

/-- C8: for every driver result and every operation whose uppercase form is
none of SELECT/INSERT/UPDATE/DELETE, `formatQueryResult` falls through to
the `{ result, operation }` shape, carrying the driver result unchanged. -/
theorem claim_C8 {Row : Type} (result : RawResult Row) (operation : String)
    (hop : upperL operation.data ≠ ("SELECT").data ∧
           upperL operation.data ≠ ("INSERT").data ∧
           upperL operation.data ≠ ("UPDATE").data ∧
           upperL operation.data ≠ ("DELETE").data) :
    formatQueryResult result operation = .other result operation := by
  simp [formatQueryResult, hop.1, hop.2.1, hop.2.2.1, hop.2.2.2]

/-- Witness for C8 with the unrecognised operation `SHOW`. -/
theorem claim_C8_witness :
    formatQueryResult (RawResult.ok none 0 : RawResult Nat) "SHOW" =
      FormattedResult.other (.ok none 0) "SHOW" :=
  claim_C8 (.ok none 0) "SHOW" (by decide)

/-- C9: formatting a driver row array of length `N` under an operation whose
uppercase form is `SELECT` yields `count = N` and `data` holding exactly
those rows, unchanged and in order. -/
theorem claim_C9 {Row : Type} (rs : List Row) (operation : String)
    (hop : upperL operation.data = ("SELECT").data) :
    formatQueryResult (.rows rs) operation =
      .select (.rows rs) (some rs.length) operation := by
  simp [formatQueryResult, hop, jsLength]

/-- Witness for C9 with three rows and lowercase `select`. -/
theorem claim_C9_witness :
    formatQueryResult (RawResult.rows [1, 2, 3]) "select" =
      FormattedResult.select (.rows [1, 2, 3]) (some 3) "select" :=
  claim_C9 [1, 2, 3] "select" (by decide)

/-- C1: under the transactional strategy (`isBulk = true`, more than one
statement), any failing execution — a validator rejection or a driver
error — leaves the database state exactly as it was before the plan
(rollback: no statement's effects survive, including earlier ones), and
the failure outcome carries a rejection reason of some statement of the
plan or a driver error message raised on some state; moreover a successful
outcome means every statement of the plan passed validation. -/
theorem claim_C1 {σ Param Row : Type} (env : DBEnv σ Param Row)
    (queries : List (QueryObj Param)) (db : σ) (h2 : 1 < queries.length) :
    (∀ e, (execute env queries true db).1 = .err e →
       (execute env queries true db).2.1 = db ∧
       ∃ qo ∈ queries, validateQuery qo.query qo.operation = .invalid e ∨
         ∃ d, env.runQuery d qo.query qo.parameters = .error e) ∧
    (∀ s, (execute env queries true db).1 = .ok s →
       ∀ qo ∈ queries, validateQuery qo.query qo.operation = .valid) := by
  have hcond : (true && decide (1 < queries.length)) = true := by simp [h2]
  rcases hbl : bulkLoop env queries db [] with ⟨r, evs⟩
  constructor
  · intro e he
    cases r with
    | ok x =>
      obtain ⟨results, db'⟩ := x
      simp [execute, hcond, hbl] at he
    | error e' =>
      have hee : e' = e := by
        simp [execute, hcond, hbl] at he
        exact he
      subst hee
      constructor
      · simp [execute, hcond, hbl]
      · exact bulkLoop_error env queries db [] e' (by rw [hbl])
  · intro s hs qo hqo
    cases r with
    | error e' => simp [execute, hcond, hbl] at hs
    | ok x =>
      obtain ⟨results, db'⟩ := x
      exact bulkLoop_ok env queries db [] (results, db') (by rw [hbl]) qo hqo

/-- Witness for C1: a two-statement bulk plan whose second statement is
rejected by the deny-list; the state is restored to `0` and the failure
carries that statement's rejection reason. -/
theorem claim_C1_witness :
    (execute wEnv [wGood, wBad] true 0).2.1 = 0 ∧
    ∃ qo ∈ [wGood, wBad],
      validateQuery qo.query qo.operation = .invalid dangerousMsg ∨
      ∃ d, wEnv.runQuery d qo.query qo.parameters = .error dangerousMsg :=
  (claim_C1 wEnv [wGood, wBad] 0 (by decide)).1 dangerousMsg (by decide)

/-- C2: the transactional strategy runs (witnessed by a `beginTransaction`
event in the trace) exactly when `isBulk` is true and the plan has more
than one statement; and every successful return reports `isBulk` equal to
the strategy actually used — in particular `false` whenever the plan ran
without a transaction, even if bulk was requested for a single-statement
plan. -/
theorem claim_C2 {σ Param Row : Type} (env : DBEnv σ Param Row)
    (queries : List (QueryObj Param)) (isBulk : Bool) (db : σ) :
    ((Event.beginTxn ∈ (execute env queries isBulk db).2.2) ↔
      (isBulk = true ∧ 1 < queries.length)) ∧
    (∀ s, (execute env queries isBulk db).1 = .ok s →
      s.isBulk = (isBulk && decide (1 < queries.length))) := by
  cases hcond : (isBulk && decide (1 < queries.length)) with
  | true =>
    have hb : isBulk = true ∧ 1 < queries.length := by
      simp only [Bool.and_eq_true, decide_eq_true_eq] at hcond
      exact hcond
    obtain ⟨hb1, hb2⟩ := hb
    subst hb1
    rcases hbl : bulkLoop env queries db [] with ⟨r, evs⟩
    cases r with
    | ok x =>
      obtain ⟨results, db'⟩ := x
      have hx : execute env queries true db =
          (.ok ⟨.many results, queries.length, true⟩, db',
           Event.acquire :: Event.beginTxn :: (evs ++ [Event.commit, Event.release])) := by
        simp [execute, hcond, hbl]
      constructor
      · refine ⟨fun _ => ⟨rfl, hb2⟩, fun _ => ?_⟩
        rw [hx]
        simp
      · intro s hs
        rw [hx] at hs
        injection hs with h
        rw [← h]
    | error e =>
      have hx : execute env queries true db =
          (.err e, db,
           Event.acquire :: Event.beginTxn :: (evs ++ [Event.rollback, Event.release])) := by
        simp [execute, hcond, hbl]
      constructor
      · refine ⟨fun _ => ⟨rfl, hb2⟩, fun _ => ?_⟩
        rw [hx]
        simp
      · intro s hs
        rw [hx] at hs
        simp at hs
  | false =>
    have hne : ¬ (isBulk = true ∧ 1 < queries.length) := by
      intro hb
      rw [hb.1] at hcond
      simp [hb.2] at hcond
    have hx : execute env queries isBulk db =
        seqLoop env queries.length queries db [] := by
      simp [execute, hcond]
    constructor
    · constructor
      · intro hmem
        exfalso
        rw [hx] at hmem
        obtain ⟨s, hs⟩ := seqLoop_events env queries.length queries db [] _ hmem
        simp at hs
      · intro hco
        exact absurd hco hne
    · intro s hs
      rw [hx] at hs
      exact (seqLoop_ok env queries.length queries db [] s hs).2

/-- Witness for C2: a single-statement plan requested with `isBulk = true`
still reports `isBulk = false` in its successful result. -/
theorem claim_C2_witness :
    wSingleSuccess.isBulk = (true && decide (1 < ([wGood] : List (QueryObj Nat)).length)) :=
  (claim_C2 wEnv [wGood] true 0).2 wSingleSuccess (by decide)

/-- C3: under the sequential strategy, statements run strictly in order and
each is validated immediately before its own execution: if every statement
of a prefix validates and executes successfully (reaching state `db'`) and
the next statement is rejected with reason `e`, the plan returns the
failure `e`, the final state is exactly `db'` (the prefix's effects stay,
nothing is rolled back), and the trace shows precisely the prefix's
statements executed in order — the rejected statement and everything after
it never reach the database. -/
theorem claim_C3 {σ Param Row : Type} (env : DBEnv σ Param Row)
    (isBulk : Bool) (pre : List (QueryObj Param)) (qo : QueryObj Param)
    (rest : List (QueryObj Param)) (db db' : σ) (e : String)
    (hseq : isBulk = false ∨ (pre ++ qo :: rest).length ≤ 1)
    (hpre : ∀ p ∈ pre, validateQuery p.query p.operation = .valid)
    (hqo : validateQuery qo.query qo.operation = .invalid e)
    (hrun : runPrefix env pre db = some db') :
    execute env (pre ++ qo :: rest) isBulk db =
      (.err e, db', pre.map fun p => Event.query p.query) := by
  have hcond : (isBulk && decide (1 < (pre ++ qo :: rest).length)) = false := by
    rcases hseq with h | h
    · simp [h]
    · simp only [List.length_append, List.length_cons] at h ⊢
      simp only [Bool.and_eq_false_iff, decide_eq_false_iff_not, Nat.not_lt]
      right
      omega
  have hx : execute env (pre ++ qo :: rest) isBulk db =
      seqLoop env (pre ++ qo :: rest).length (pre ++ qo :: rest) db [] := by
    unfold execute
    rw [hcond]
    simp
  rw [hx]
  exact seqLoop_abort env (pre ++ qo :: rest).length pre qo rest db db' [] e hpre hqo hrun

/-- Witness for C3: a non-bulk plan `[wGood, wBad]`; the first statement's
effect (state `1`) survives, the second is rejected before execution. -/
theorem claim_C3_witness :
    execute wEnv [wGood, wBad] false 0 =
      (.err dangerousMsg, 1, [wGood].map fun p => Event.query p.query) :=
  claim_C3 wEnv false [wGood] wBad [] 0 1 dangerousMsg (Or.inl rfl)
    (by decide) (by decide) (by decide)

/-- C6: whenever the transactional strategy runs, the trace is one `acquire`
followed by events among which neither `acquire` nor `release` occurs, and
one final `release`: the dedicated connection is released on every exit
path (commit, validation rejection, driver error) and never leaks. -/
theorem claim_C6 {σ Param Row : Type} (env : DBEnv σ Param Row)
    (queries : List (QueryObj Param)) (db : σ) (h2 : 1 < queries.length) :
    ∃ mid, (execute env queries true db).2.2 =
        Event.acquire :: mid ++ [Event.release] ∧
      Event.acquire ∉ mid ∧ Event.release ∉ mid := by
  have hcond : (true && decide (1 < queries.length)) = true := by simp [h2]
  rcases hbl : bulkLoop env queries db [] with ⟨r, evs⟩
  have hexcl := query_events_excl
    (fun e he => bulkLoop_events env queries db [] e (by rw [hbl]; exact he))
  cases r with
  | ok x =>
    obtain ⟨results, db'⟩ := x
    refine ⟨Event.beginTxn :: evs ++ [Event.commit], ?_, ?_, ?_⟩
    · simp [execute, hcond, hbl]
    · intro hmem
      simp at hmem
      exact hexcl.1 hmem
    · intro hmem
      simp at hmem
      exact hexcl.2.1 hmem
  | error e =>
    refine ⟨Event.beginTxn :: evs ++ [Event.rollback], ?_, ?_, ?_⟩
    · simp [execute, hcond, hbl]
    · intro hmem
      simp at hmem
      exact hexcl.1 hmem
    · intro hmem
      simp at hmem
      exact hexcl.2.1 hmem

/-- Witness for C6: the failing bulk plan `[wGood, wBad]` still releases
its connection. -/
theorem claim_C6_witness :
    ∃ mid, (execute wEnv [wGood, wBad] true 0).2.2 =
        Event.acquire :: mid ++ [Event.release] ∧
      Event.acquire ∉ mid ∧ Event.release ∉ mid :=
  claim_C6 wEnv [wGood, wBad] 0 (by decide)

/-- C10: the empty plan succeeds without touching the validator or the
database: for any requested `isBulk`, the result is
`{ success: true, results: [], totalQueries: 0, isBulk: false }`, the
state is unchanged and the trace is empty (no connection, no statement). -/
theorem claim_C10 {σ Param Row : Type} (env : DBEnv σ Param Row)
    (isBulk : Bool) (db : σ) :
    execute env ([] : List (QueryObj Param)) isBulk db =
      (.ok ⟨.many ([] : List (FormattedResult Row)), 0, false⟩, db, []) := by
  cases isBulk <;> rfl

end SqlAgent
